import Mathlib

/-!
Verification of the Focus-Guard browser extension's core logic:
domain normalization and validation, the blocked-domains store
(add / remove / toggle / isBlocked), the persisted-value deserializer,
and the navigation guard.  JavaScript strings are modelled as lists of
characters; the external JSON parser and URL parser are modelled as
oracle parameters, with concrete finite oracles used for evaluation on
the concrete inputs appearing in the development.
-/

namespace FocusGuard

/-! ## Domain Rules -/

/-- Model of JavaScript `String.prototype.trim`: drop whitespace from both ends. -/
def trimL (s : List Char) : List Char :=
  ((s.dropWhile Char.isWhitespace).reverse.dropWhile Char.isWhitespace).reverse

/-- Model of JavaScript `String.prototype.toLowerCase` (ASCII letters). -/
def toLowerL (s : List Char) : List Char :=
  s.map Char.toLower

/-- The `replace` of the anchored scheme regex in `normalizeDomain`: that
regex matches exactly the prefixes `http://` and `https://`. -/
def stripScheme (d : List Char) : List Char :=
  if ("https://".toList).isPrefixOf d then d.drop 8
  else if ("http://".toList).isPrefixOf d then d.drop 7
  else d

/-- The `replace` of the anchored `www.` regex in `normalizeDomain`. -/
def stripWww (d : List Char) : List Char :=
  if ("www.".toList).isPrefixOf d then d.drop 4 else d

/-- The `replace` of the trailing-slash regex in `normalizeDomain`. -/
def stripTrailingSlash (d : List Char) : List Char :=
  if d.getLast? = some '/' then d.dropLast else d

/-- JavaScript `split('/')[0]`: the part before the first slash. -/
def beforeSlash (d : List Char) : List Char :=
  d.takeWhile (fun c => c != '/')

/-- Embedding of `normalizeDomain` from the source: trim, lowercase, strip a
leading scheme, strip a leading `www.`, strip one trailing slash, then keep
only the part before the first `/`, in the order the code reassigns. -/
def normalizeDomain (input : List Char) : List Char :=
  beforeSlash (stripTrailingSlash (stripWww (stripScheme (toLowerL (trimL input)))))

/-- Character class of the regex in `isValidDomain`: letters or digits,
case-insensitive because the regex carries the `i` flag. -/
def isAlnumCI (c : Char) : Bool := c.isAlpha || c.isDigit

/-- One dot-separated label of the `isValidDomain` regex: a leading
alphanumeric character, then optionally up to 61 characters drawn from
letters, digits and hyphen, followed by a final alphanumeric character. -/
def labelMatch : List Char → Bool
  | [] => false
  | [c] => isAlnumCI c
  | c :: rest =>
    isAlnumCI c && rest.length ≤ 62 &&
      rest.dropLast.all (fun x => isAlnumCI x || x == '-') &&
      (match rest.getLast? with
       | some y => isAlnumCI y
       | none => false)

/-- Final label of the `isValidDomain` regex: at least two letters. -/
def tldMatch (l : List Char) : Bool :=
  2 ≤ l.length && l.all Char.isAlpha

/-- The anchored regex of `isValidDomain`: one or more labels each followed
by a literal dot, then the final alphabetic label.  Since the character
classes exclude the dot, the regex matches exactly when splitting on dots
yields at least two pieces, every piece but the last matches a label and the
last matches the final-label pattern. -/
def domainRegexTest (s : List Char) : Bool :=
  let parts := s.splitOn '.'
  2 ≤ parts.length &&
    parts.dropLast.all labelMatch &&
    (match parts.getLast? with
     | some tld => tldMatch tld
     | none => false)

/-- Embedding of `isValidDomain` from the source, with its checks in the
order the code performs them. -/
def isValidDomain (domain : List Char) : Bool :=
  if domain.isEmpty then false
  else if !(domainRegexTest domain) then false
  else if 253 < domain.length then false
  else
    let labels := domain.splitOn '.'
    if labels.length < 2 then false
    else if (labels.getLastD []).length < 2 then false
    else
      labels.all (fun label =>
        !(63 < label.length) && !(label.length == 0) &&
          !(label.head? == some '-') && !(label.getLast? == some '-'))

/-! ## Block List Store -/

/-- Entry of the blocked-domains collection. -/
structure BlockedDomain where
  domain : List Char
  enabled : Bool
deriving DecidableEq, Repr

/-- The two errors `add` can throw. -/
inductive AddError
  | invalidFormat
  | duplicateEntry
deriving DecidableEq, Repr

namespace blockedDomainsStorage

/-- Embedding of `blockedDomainsStorage.add`.  The atomic read-modify-write
`storage.set` either commits the updated list or propagates the updater's
error with the stored value unchanged; this is modelled by the `Except`
result, where an error carries no new state. -/
def add (st : List BlockedDomain) (rawDomain : List Char) :
    Except AddError (List BlockedDomain) :=
  let normalized := normalizeDomain rawDomain
  if normalized.isEmpty || !(isValidDomain normalized) then
    Except.error AddError.invalidFormat
  else if st.any (fun d => d.domain == normalized) then
    Except.error AddError.duplicateEntry
  else
    Except.ok (st ++ [{ domain := normalized, enabled := true }])

/-- Embedding of `blockedDomainsStorage.remove`: keep the entries whose
domain differs from the verbatim argument. -/
def remove (st : List BlockedDomain) (domain : List Char) : List BlockedDomain :=
  st.filter (fun d => d.domain != domain)

/-- Embedding of `blockedDomainsStorage.toggle`: flip `enabled` on entries
whose domain equals the verbatim argument. -/
def toggle (st : List BlockedDomain) (domain : List Char) : List BlockedDomain :=
  st.map (fun d => if d.domain == domain then { d with enabled := !d.enabled } else d)

/-- Embedding of `blockedDomainsStorage.isBlocked`: normalize the argument,
find the first entry with that domain, return its flag or `false`. -/
def isBlocked (st : List BlockedDomain) (domain : List Char) : Bool :=
  let normalized := normalizeDomain domain
  match st.find? (fun d => d.domain == normalized) with
  | some blocked => blocked.enabled
  | none => false

end blockedDomainsStorage

/-- One mutation of the store, as issued by the UI. -/
inductive StoreOp
  | addOp (raw : List Char)
  | removeOp (d : List Char)
  | toggleOp (d : List Char)

/-- Apply one operation; a failing `add` leaves the stored value unchanged. -/
def applyOp (st : List BlockedDomain) : StoreOp → List BlockedDomain
  | .addOp raw =>
    match blockedDomainsStorage.add st raw with
    | .ok st2 => st2
    | .error _ => st
  | .removeOp d => blockedDomainsStorage.remove st d
  | .toggleOp d => blockedDomainsStorage.toggle st d

/-- Apply a sequence of operations in order. -/
def applyOps (st : List BlockedDomain) (ops : List StoreOp) : List BlockedDomain :=
  ops.foldl applyOp st

/-! ## Navigation Guard -/

/-- Model of JavaScript `String.prototype.includes`: the needle occurs as a
contiguous substring. -/
def containsSub (needle : List Char) : List Char → Bool
  | [] => needle.isEmpty
  | c :: rest => needle.isPrefixOf (c :: rest) || containsSub needle rest

/-- The exclusion filter at the top of `checkAndBlockDomain`, exactly as the
code writes it: three scheme tests plus a substring test for `blocked.html`. -/
def excludedUrl (url : List Char) : Bool :=
  ("chrome://".toList).isPrefixOf url ||
  ("chrome-extension://".toList).isPrefixOf url ||
  ("about:".toList).isPrefixOf url ||
  containsSub ("blocked.html".toList) url

/-- Outcome of one guard evaluation.  `excluded` means the filter returned
early: no URL parse, no store query, no redirect.  `parseFailed` means
`new URL` threw and the catch block swallowed the error: no store query, no
redirect.  `checked d r` means the store was queried for `d` and a redirect
to the extension's blocked page was issued exactly when `r` is true. -/
inductive GuardResult
  | excluded
  | parseFailed
  | checked (domain : List Char) (redirect : Bool)
deriving DecidableEq, Repr

/-- Embedding of `checkAndBlockDomain`.  `parseHost` is the oracle for
`new URL(url).hostname`: `none` models the constructor throwing. -/
def checkAndBlockDomain (parseHost : List Char → Option (List Char))
    (store : List BlockedDomain) (url : List Char) : GuardResult :=
  if excludedUrl url then GuardResult.excluded
  else
    match parseHost url with
    | none => GuardResult.parseFailed
    | some hostname =>
      let domain := normalizeDomain hostname
      GuardResult.checked domain (blockedDomainsStorage.isBlocked store domain)

/-- Whether an evaluation issued the redirect side effect. -/
def redirects : GuardResult → Bool
  | .checked _ r => r
  | _ => false

/-- Event payload of `chrome.webNavigation.onCommitted`. -/
structure NavDetails where
  url : List Char
  tabId : Nat
  frameId : Nat

/-- Embedding of the `onCommitted` listener body: only main-frame
navigations (`frameId = 0`) are evaluated; `none` means no evaluation ran.
(The host additionally restricts this listener to http/https URLs.) -/
def onCommittedHandler (parseHost : List Char → Option (List Char))
    (store : List BlockedDomain) (details : NavDetails) : Option GuardResult :=
  if details.frameId = 0 then
    some (checkAndBlockDomain parseHost store details.url)
  else
    none

/-- Embedding of the `tabs.onUpdated` listener body: evaluate only when the
change reports a `loading` status and the tab has a URL. -/
def onUpdatedHandler (parseHost : List Char → Option (List Char))
    (store : List BlockedDomain) (status : Option (List Char))
    (tabUrl : Option (List Char)) : Option GuardResult :=
  if status = some ("loading".toList) then
    tabUrl.map (checkAndBlockDomain parseHost store)
  else
    none

/-! ## Deserialization -/

/-- JSON values, as produced by `JSON.parse`. -/
inductive Json
  | str (s : List Char)
  | num (n : Int)
  | bool (b : Bool)
  | null
  | arr (elems : List Json)
  | obj (fields : List (List Char × Json))

/-- The value handed to `deserialize` by the storage substrate: absent,
null, or the persisted string. -/
inductive JsInput
  | undef
  | null
  | str (s : List Char)

/-- Model of the JavaScript `String(text)` conversion on those inputs. -/
def jsString : JsInput → List Char
  | .undef => "undefined".toList
  | .null => "null".toList
  | .str s => s

/-- Property access `j.key` on a parsed JSON value: only objects have named
fields; everything else yields undefined, modelled as `none`. -/
def getProp (j : Json) (key : List Char) : Option Json :=
  match j with
  | .obj fields =>
    match fields.find? (fun f => f.1 == key) with
    | some f => some f.2
    | none => none
  | _ => none

/-- JavaScript truthiness of a parsed JSON value. -/
def jsTruthy : Json → Bool
  | .null => false
  | .bool b => b
  | .num n => !(n == 0)
  | .str s => !s.isEmpty
  | .arr _ => true
  | .obj _ => true

/-- Whether `typeof item` is the string `object`: true for objects, arrays
and null. -/
def typeofIsObject : Json → Bool
  | .null => true
  | .arr _ => true
  | .obj _ => true
  | _ => false

/-- Whether an optional property value is a string. -/
def isStringProp : Option Json → Bool
  | some (.str _) => true
  | _ => false

/-- Whether an optional property value is a boolean. -/
def isBoolProp : Option Json → Bool
  | some (.bool _) => true
  | _ => false

/-- The filter predicate of `deserialize`, exactly as the code writes it:
truthy, `typeof item` is `object`, `item.domain` a string, `item.enabled` a
boolean. -/
def codeKeep (item : Json) : Bool :=
  jsTruthy item && typeofIsObject item &&
    isStringProp (getProp item ("domain".toList)) &&
    isBoolProp (getProp item ("enabled".toList))

/-- The legacy-migration wrapper of `deserialize`: build an object with the
element as `domain` and `enabled` set to true. -/
def wrapLegacy (e : Json) : Json :=
  Json.obj [("domain".toList, e), ("enabled".toList, Json.bool true)]

/-- Embedding of the `deserialize` callback.  `jsonParse` is the oracle for
`JSON.parse`: `none` models a parse error. -/
def deserialize (jsonParse : List Char → Option Json) (text : JsInput) : List Json :=
  match text with
  | .undef => []
  | .null => []
  | .str _ =>
    let textStr := jsString text
    if textStr == "undefined".toList || textStr == "null".toList ||
        trimL textStr == ([] : List Char) then []
    else
      match jsonParse textStr with
      | none => []
      | some (Json.arr elems) =>
        match elems with
        | Json.str _ :: _ => elems.map wrapLegacy
        | _ => elems.filter codeKeep
      | some _ => []

/-! ## Definitions written from the specification's words, for comparison -/

/-- Element-keeping rule as the specification words it: an object with a
string `domain` field and a boolean `enabled` field. -/
def specKeep (item : Json) : Bool :=
  match item with
  | .obj _ =>
    isStringProp (getProp item ("domain".toList)) &&
      isBoolProp (getProp item ("enabled".toList))
  | _ => false

/-- The deserialization policy as the specification words it, clause by
clause: missing, null, the literal strings, blank input, unparseable
content and non-sequences give the empty collection; a sequence whose first
element is a plain string is migrated by wrapping each element; any other
sequence is filtered by `specKeep`. -/
def deserializeSpec (jsonParse : List Char → Option Json) (text : JsInput) : List Json :=
  match text with
  | .undef => []
  | .null => []
  | .str s =>
    if s == "undefined".toList || s == "null".toList ||
        trimL s == ([] : List Char) then []
    else
      match jsonParse s with
      | none => []
      | some (Json.arr elems) =>
        match elems with
        | Json.str _ :: _ => elems.map wrapLegacy
        | _ => elems.filter specKeep
      | some _ => []

/-- Canonical form as the specification words it: lowercase, no scheme, no
`www.` label in front, and no slash anywhere (hence no path and no trailing
slash). -/
def canonicalSpec (d : List Char) : Bool :=
  toLowerL d == d &&
  !(("http://".toList).isPrefixOf d) &&
  !(("https://".toList).isPrefixOf d) &&
  !(("www.".toList).isPrefixOf d) &&
  d.all (fun c => c != '/')

/-- The extension's own blocked page as the specification words it: an
extension-internal URL for `blocked.html`. -/
def ownBlockedPage (url : List Char) : Bool :=
  ("chrome-extension://".toList).isPrefixOf url &&
  ("/blocked.html".toList).isSuffixOf url

/-- The exclusion condition as the claim words it: an internal browser
scheme, an extension-internal scheme, an `about:` scheme, or the
extension's own blocked page. -/
def specExcludedUrl (url : List Char) : Bool :=
  ("chrome://".toList).isPrefixOf url ||
  ("chrome-extension://".toList).isPrefixOf url ||
  ("about:".toList).isPrefixOf url ||
  ownBlockedPage url

/-- The property carried by every domain the store itself inserts:
lowercase, slash-free and accepted by `isValidDomain`. -/
def goodDomain (d : List Char) : Bool :=
  toLowerL d == d && d.all (fun c => c != '/') && isValidDomain d

/-! ## Concrete oracles for evaluation -/

/-- Finite table modelling `new URL(u).hostname` on the concrete URLs used
in this development; these are the hostnames the WHATWG parser produces. -/
def hostTable : List (List Char × List Char) :=
  [("https://example.com/blocked.html".toList, "example.com".toList),
   ("https://blocked-domain.com/page".toList, "blocked-domain.com".toList),
   ("https://www.www.example.com/page".toList, "www.www.example.com".toList)]

/-- Concrete URL-parsing oracle built from `hostTable`. -/
def parseHostFix (url : List Char) : Option (List Char) :=
  (hostTable.find? (fun p => p.1 == url)).map (fun p => p.2)

/-- Finite table modelling `JSON.parse` on the concrete persisted strings
used in this development. -/
def jsonTable : List (List Char × Json) :=
  [("[\"WWW.EXAMPLE.COM\"]".toList, Json.arr [Json.str ("WWW.EXAMPLE.COM".toList)]),
   ("[\"a.com\",\"a.com\"]".toList,
     Json.arr [Json.str ("a.com".toList), Json.str ("a.com".toList)]),
   ("[]".toList, Json.arr [])]

/-- Concrete JSON-parsing oracle built from `jsonTable`; every other string
is a parse error. -/
def jsonParseFix (s : List Char) : Option Json :=
  (jsonTable.find? (fun p => p.1 == s)).map (fun p => p.2)

/-! ## Helper lemmas -/

theorem map_eq_self_of {α : Type} (f : α → α) (l : List α)
    (h : ∀ a ∈ l, f a = a) : l.map f = l := by
  induction l with
  | nil => rfl
  | cons a t ih =>
    simp only [List.map_cons]
    rw [h a (by simp), ih (fun b hb => h b (by simp [hb]))]

theorem takeWhile_eq_self_of {α : Type} (p : α → Bool) (l : List α)
    (h : ∀ a ∈ l, p a = true) : l.takeWhile p = l := by
  induction l with
  | nil => rfl
  | cons a t ih =>
    rw [List.takeWhile_cons, if_pos (h a (by simp)),
      ih (fun b hb => h b (by simp [hb]))]

theorem charToLower_idem (c : Char) : c.toLower.toLower = c.toLower := by
  unfold Char.toLower
  by_cases h : c.toNat ≥ 65 ∧ c.toNat ≤ 90
  · rw [if_pos h]
    have hv : (c.toNat + 32).isValidChar := by
      left
      omega
    have ht : (Char.ofNat (c.toNat + 32)).toNat = c.toNat + 32 := by
      unfold Char.ofNat
      rw [dif_pos hv]
      simp [Char.ofNatAux, Char.toNat, UInt32.toNat]
    rw [if_neg]
    omega
  · rw [if_neg h, if_neg h]

theorem stripScheme_sublist (d : List Char) : (stripScheme d).Sublist d := by
  unfold stripScheme
  split
  · exact List.drop_sublist _ _
  split
  · exact List.drop_sublist _ _
  · exact List.Sublist.refl _

theorem stripWww_sublist (d : List Char) : (stripWww d).Sublist d := by
  unfold stripWww
  split
  · exact List.drop_sublist _ _
  · exact List.Sublist.refl _

theorem stripTrailingSlash_sublist (d : List Char) :
    (stripTrailingSlash d).Sublist d := by
  unfold stripTrailingSlash
  split
  · exact List.dropLast_sublist _
  · exact List.Sublist.refl _

theorem beforeSlash_sublist (d : List Char) : (beforeSlash d).Sublist d :=
  List.takeWhile_sublist _

theorem normalizeDomain_sublist (x : List Char) :
    (normalizeDomain x).Sublist (toLowerL (trimL x)) := by
  unfold normalizeDomain
  exact (((beforeSlash_sublist _).trans (stripTrailingSlash_sublist _)).trans
    (stripWww_sublist _)).trans (stripScheme_sublist _)

theorem slash_not_mem_normalizeDomain (x : List Char) :
    '/' ∉ normalizeDomain x := by
  intro h
  unfold normalizeDomain beforeSlash at h
  have := List.mem_takeWhile_imp h
  simp at this

theorem toLowerL_normalizeDomain (x : List Char) :
    toLowerL (normalizeDomain x) = normalizeDomain x := by
  apply map_eq_self_of
  intro c hc
  have hmem : c ∈ toLowerL (trimL x) := (normalizeDomain_sublist x).subset hc
  unfold toLowerL at hmem
  rcases List.mem_map.mp hmem with ⟨a, _, rfl⟩
  exact charToLower_idem a

theorem prefixOf_mem {pfx d : List Char} (h : pfx.isPrefixOf d = true)
    {c : Char} (hc : c ∈ pfx) : c ∈ d :=
  (List.isPrefixOf_iff_prefix.mp h).subset hc

theorem stripScheme_eq_self {d : List Char} (h : '/' ∉ d) :
    stripScheme d = d := by
  have h1 : ¬ (("https://".toList).isPrefixOf d = true) := fun hp =>
    h (prefixOf_mem hp (by decide))
  have h2 : ¬ (("http://".toList).isPrefixOf d = true) := fun hp =>
    h (prefixOf_mem hp (by decide))
  unfold stripScheme
  rw [if_neg h1, if_neg h2]

theorem stripWww_eq_self {d : List Char}
    (h : ("www.".toList).isPrefixOf d = false) : stripWww d = d := by
  unfold stripWww
  rw [if_neg]
  intro hp
  rw [hp] at h
  simp at h

theorem stripTrailingSlash_eq_self {d : List Char} (h : '/' ∉ d) :
    stripTrailingSlash d = d := by
  unfold stripTrailingSlash
  rw [if_neg]
  intro hl
  exact h (List.mem_of_mem_getLast? hl)

theorem beforeSlash_eq_self {d : List Char} (h : '/' ∉ d) :
    beforeSlash d = d := by
  apply takeWhile_eq_self_of
  intro c hc
  simp only [bne_iff_ne, ne_eq, decide_eq_true_eq]
  intro heq
  exact h (heq ▸ hc)

theorem isBlocked_unfold (st : List BlockedDomain) (q : List Char) :
    blockedDomainsStorage.isBlocked st q =
      (match st.find? (fun e => e.domain == normalizeDomain q) with
       | some b => b.enabled
       | none => false) := rfl

/-! ## Claim C2 -/

/-- C2: counterexample.  `normalizeDomain` is not idempotent: on
`www.www.example.com` the first application strips one `www.` label and a
second application strips another. -/
theorem C2_cex :
    normalizeDomain (normalizeDomain ("www.www.example.com".toList)) ≠
      normalizeDomain ("www.www.example.com".toList) := by
  decide

/-- C2 (amended): `normalizeDomain` is a pure total function on all string
inputs, and it is idempotent on every input whose normalized form carries no
surrounding whitespace and does not itself begin with `www.`; in general a
second application may trim exposed whitespace or strip a further `www.`
label. -/
theorem C2_normalize_conditional_idem (x : List Char)
    (h1 : trimL (normalizeDomain x) = normalizeDomain x)
    (h2 : ("www.".toList).isPrefixOf (normalizeDomain x) = false) :
    normalizeDomain (normalizeDomain x) = normalizeDomain x := by
  have hs : '/' ∉ normalizeDomain x := slash_not_mem_normalizeDomain x
  show beforeSlash (stripTrailingSlash (stripWww (stripScheme
    (toLowerL (trimL (normalizeDomain x)))))) = normalizeDomain x
  rw [h1, toLowerL_normalizeDomain, stripScheme_eq_self hs,
    stripWww_eq_self h2, stripTrailingSlash_eq_self hs, beforeSlash_eq_self hs]

/-- C2: witness for the amended idempotence at the input `example.com`. -/
theorem C2_witness :
    trimL (normalizeDomain ("example.com".toList)) =
        normalizeDomain ("example.com".toList) ∧
    ("www.".toList).isPrefixOf (normalizeDomain ("example.com".toList)) = false ∧
    normalizeDomain (normalizeDomain ("example.com".toList)) =
        normalizeDomain ("example.com".toList) :=
  ⟨by decide, by decide, C2_normalize_conditional_idem _ (by decide) (by decide)⟩

/-! ## Claim C1 -/

/-- C1: counterexample.  The URL `https://example.com/blocked.html` has an
ordinary web scheme and is not the extension's own blocked page, so by the
claim the evaluation should proceed to the store query; the code's substring
test stops it at the exclusion filter instead. -/
theorem C1_cex :
    checkAndBlockDomain parseHostFix [⟨"example.com".toList, true⟩]
        ("https://example.com/blocked.html".toList) = GuardResult.excluded ∧
    specExcludedUrl ("https://example.com/blocked.html".toList) = false :=
  ⟨by decide, by decide⟩

/-- C1 (amended): the guard stops with no store query and no redirect
exactly when the candidate URL starts with `chrome://`,
`chrome-extension://` or `about:`, or contains the substring `blocked.html`
anywhere; every other candidate URL proceeds to parsing and, on success, to
normalization and the store query. -/
theorem C1_exclusion_filter (parseHost : List Char → Option (List Char))
    (store : List BlockedDomain) (url : List Char) :
    (checkAndBlockDomain parseHost store url = GuardResult.excluded ↔
      excludedUrl url = true) ∧
    (excludedUrl url = false →
      (parseHost url = none ∧
        checkAndBlockDomain parseHost store url = GuardResult.parseFailed) ∨
      (∃ hostname, parseHost url = some hostname ∧
        checkAndBlockDomain parseHost store url =
          GuardResult.checked (normalizeDomain hostname)
            (blockedDomainsStorage.isBlocked store (normalizeDomain hostname)))) := by
  cases hex : excludedUrl url
  case true =>
    refine ⟨by simp [checkAndBlockDomain, hex], ?_⟩
    intro hfalse
    cases hfalse
  case false =>
    refine ⟨?_, fun _ => ?_⟩
    · cases hp : parseHost url <;> simp [checkAndBlockDomain, hex, hp]
    · cases hp : parseHost url
      · exact Or.inl ⟨rfl, by simp [checkAndBlockDomain, hex, hp]⟩
      · exact Or.inr ⟨_, rfl, by simp [checkAndBlockDomain, hex, hp]⟩

/-- C1: witness, evaluating the guard at the non-excluded URL
`https://blocked-domain.com/page` over the empty store. -/
theorem C1_witness :
    (parseHostFix ("https://blocked-domain.com/page".toList) = none ∧
      checkAndBlockDomain parseHostFix [] ("https://blocked-domain.com/page".toList) =
        GuardResult.parseFailed) ∨
    (∃ hostname, parseHostFix ("https://blocked-domain.com/page".toList) = some hostname ∧
      checkAndBlockDomain parseHostFix [] ("https://blocked-domain.com/page".toList) =
        GuardResult.checked (normalizeDomain hostname)
          (blockedDomainsStorage.isBlocked [] (normalizeDomain hostname))) :=
  (C1_exclusion_filter parseHostFix []
    ("https://blocked-domain.com/page".toList)).2 (by decide)

/-! ## Claim C4 -/

/-- C4: `add` fails with the invalid-format error exactly when the
normalized input is empty or fails `isValidDomain`; otherwise it fails with
the duplicate-entry error exactly when an entry with that canonical domain
already exists, whatever its flag; otherwise it appends the new enabled
entry at the end.  A failure commits no new collection. -/
theorem C4_add_contract (st : List BlockedDomain) (raw : List Char) :
    (blockedDomainsStorage.add st raw = Except.error AddError.invalidFormat ↔
      (normalizeDomain raw = [] ∨ isValidDomain (normalizeDomain raw) = false)) ∧
    (blockedDomainsStorage.add st raw = Except.error AddError.duplicateEntry ↔
      (isValidDomain (normalizeDomain raw) = true ∧
        ∃ e ∈ st, e.domain = normalizeDomain raw)) ∧
    ((isValidDomain (normalizeDomain raw) = true ∧
        ¬ ∃ e ∈ st, e.domain = normalizeDomain raw) →
      blockedDomainsStorage.add st raw =
        Except.ok (st ++ [⟨normalizeDomain raw, true⟩])) := by
  unfold blockedDomainsStorage.add
  by_cases h1 : ((normalizeDomain raw).isEmpty ||
      !(isValidDomain (normalizeDomain raw))) = true
  · rw [if_pos h1]
    have hih : normalizeDomain raw = [] ∨
        isValidDomain (normalizeDomain raw) = false := by
      simpa [List.isEmpty_iff] using h1
    have hnv : ¬(isValidDomain (normalizeDomain raw) = true) := by
      rcases hih with he | hv
      · rw [he]
        decide
      · simp [hv]
    exact ⟨⟨fun _ => hih, fun _ => rfl⟩,
      ⟨fun h => by simp at h, fun h => absurd h.1 hnv⟩,
      fun h => absurd h.1 hnv⟩
  · rw [if_neg h1]
    have hval : isValidDomain (normalizeDomain raw) = true ∧
        normalizeDomain raw ≠ [] := by
      constructor
      · cases hb : isValidDomain (normalizeDomain raw)
        · exact absurd (by simp [hb]) h1
        · rfl
      · intro he
        exact h1 (by simp [List.isEmpty_iff, he])
    by_cases h2 : (st.any fun d => d.domain == normalizeDomain raw) = true
    · rw [if_pos h2]
      have hex : ∃ e ∈ st, e.domain = normalizeDomain raw := by
        simpa using h2
      refine ⟨⟨fun h => by simp at h, fun hih => ?_⟩,
        ⟨fun _ => ⟨hval.1, hex⟩, fun _ => rfl⟩,
        fun h => absurd hex h.2⟩
      rcases hih with he | hvf
      · exact absurd he hval.2
      · rw [hvf] at hval
        exact absurd hval.1 (by simp)
    · rw [if_neg h2]
      have hnex : ¬ ∃ e ∈ st, e.domain = normalizeDomain raw := by
        intro hex
        apply h2
        simpa using hex
      refine ⟨⟨fun h => by simp at h, fun hih => ?_⟩,
        ⟨fun h => by simp at h, fun hih => absurd hih.2 hnex⟩,
        fun _ => rfl⟩
      rcases hih with he | hvf
      · exact absurd he hval.2
      · rw [hvf] at hval
        exact absurd hval.1 (by simp)

/-- C4: witness, adding `Example.com` to the empty collection. -/
theorem C4_witness :
    blockedDomainsStorage.add [] ("Example.com".toList) =
      Except.ok ([] ++ [⟨normalizeDomain ("Example.com".toList), true⟩]) :=
  (C4_add_contract [] ("Example.com".toList)).2.2 ⟨by decide, by simp⟩

/-! ## Claim C7 -/

/-- C7: when the normalization of `d` is non-empty, passes `isValidDomain`
and is not yet present, `add d` succeeds and a subsequent `isBlocked d`
returns true. -/
theorem C7_add_then_isBlocked (st : List BlockedDomain) (d : List Char)
    (h1 : normalizeDomain d ≠ [])
    (h2 : isValidDomain (normalizeDomain d) = true)
    (h3 : ∀ e ∈ st, e.domain ≠ normalizeDomain d) :
    ∃ st2, blockedDomainsStorage.add st d = Except.ok st2 ∧
      blockedDomainsStorage.isBlocked st2 d = true := by
  refine ⟨st ++ [⟨normalizeDomain d, true⟩], ?_, ?_⟩
  · unfold blockedDomainsStorage.add
    rw [if_neg (by simp [List.isEmpty_iff, h1, h2]), if_neg]
    intro hany
    rcases List.any_eq_true.mp hany with ⟨e, he, heq⟩
    exact h3 e he (by simpa using heq)
  · have hfind : List.find? (fun e => e.domain == normalizeDomain d) st = none := by
      rw [List.find?_eq_none]
      intro e he
      simpa using h3 e he
    rw [isBlocked_unfold, List.find?_append, hfind]
    simp [List.find?, Option.or]

/-- C7: witness at the input `example.com` over the empty collection. -/
theorem C7_witness :
    ∃ st2, blockedDomainsStorage.add [] ("example.com".toList) = Except.ok st2 ∧
      blockedDomainsStorage.isBlocked st2 ("example.com".toList) = true :=
  C7_add_then_isBlocked [] ("example.com".toList) (by decide) (by decide) (by simp)

/-! ## Claim C9 -/

/-- C9: toggling the same domain twice restores the collection exactly, and
toggling a domain no entry carries is a no-op. -/
theorem C9_toggle_twice (st : List BlockedDomain) (d : List Char) :
    blockedDomainsStorage.toggle (blockedDomainsStorage.toggle st d) d = st ∧
    ((∀ e ∈ st, e.domain ≠ d) → blockedDomainsStorage.toggle st d = st) := by
  constructor
  · unfold blockedDomainsStorage.toggle
    rw [List.map_map]
    apply map_eq_self_of
    intro e _
    by_cases h : (e.domain == d) = true
    · simp [Function.comp, h]
    · simp [Function.comp, h]
  · intro h
    unfold blockedDomainsStorage.toggle
    apply map_eq_self_of
    intro e he
    rw [if_neg]
    simpa using h e he

/-- C9: witness, toggling `example.com` twice on a one-entry collection and
toggling an absent domain once. -/
theorem C9_witness :
    blockedDomainsStorage.toggle (blockedDomainsStorage.toggle
        [⟨"example.com".toList, true⟩] ("example.com".toList))
        ("example.com".toList) = [⟨"example.com".toList, true⟩] ∧
    blockedDomainsStorage.toggle [⟨"example.com".toList, true⟩]
        ("b.com".toList) = [⟨"example.com".toList, true⟩] :=
  ⟨(C9_toggle_twice _ _).1, (C9_toggle_twice _ _).2 (by decide)⟩

/-! ## Claim C10 -/

/-- C10: counterexample.  A collection can itself contain the non-canonical
string as a stored domain, and then `remove` with that string does change a
collection that also contains the canonical `example.com` entry. -/
theorem C10_cex :
    blockedDomainsStorage.remove
        [⟨"example.com".toList, true⟩, ⟨"Example.com".toList, true⟩]
        ("Example.com".toList) ≠
      [⟨"example.com".toList, true⟩, ⟨"Example.com".toList, true⟩] ∧
    normalizeDomain ("Example.com".toList) = "example.com".toList :=
  ⟨by decide, by decide⟩

/-- C10 (amended): `remove` and `toggle` compare their argument verbatim
against stored domains, unlike `add` and `isBlocked` which normalize: for
every collection containing an entry with domain `example.com` and storing
the queried non-canonical form itself in no entry, `remove` and `toggle`
with that form leave the collection unchanged, while `isBlocked` with that
form agrees with `isBlocked` on `example.com` and `add` with that form
fails as a duplicate. -/
theorem C10_verbatim_comparison (st : List BlockedDomain) (x : List Char)
    (hx : normalizeDomain x = "example.com".toList)
    (hne : ∀ e ∈ st, e.domain ≠ x)
    (hmem : ∃ e ∈ st, e.domain = "example.com".toList) :
    blockedDomainsStorage.remove st x = st ∧
    blockedDomainsStorage.toggle st x = st ∧
    blockedDomainsStorage.isBlocked st x =
      blockedDomainsStorage.isBlocked st ("example.com".toList) ∧
    blockedDomainsStorage.add st x = Except.error AddError.duplicateEntry := by
  refine ⟨?_, ?_, ?_, ?_⟩
  · unfold blockedDomainsStorage.remove
    rw [List.filter_eq_self]
    intro e he
    simpa using hne e he
  · unfold blockedDomainsStorage.toggle
    apply map_eq_self_of
    intro e he
    rw [if_neg]
    simpa using hne e he
  · unfold blockedDomainsStorage.isBlocked
    rw [hx, show normalizeDomain ("example.com".toList) = "example.com".toList
      from by decide]
  · unfold blockedDomainsStorage.add
    rw [hx, if_neg (by decide), if_pos]
    rcases hmem with ⟨e, he, hd⟩
    exact List.any_eq_true.mpr ⟨e, he, by simp [hd]⟩

/-- C10: witness at the non-canonical form `www.example.com` over the
one-entry collection holding `example.com`. -/
theorem C10_witness :
    blockedDomainsStorage.remove [⟨"example.com".toList, true⟩]
        ("www.example.com".toList) = [⟨"example.com".toList, true⟩] ∧
    blockedDomainsStorage.toggle [⟨"example.com".toList, true⟩]
        ("www.example.com".toList) = [⟨"example.com".toList, true⟩] ∧
    blockedDomainsStorage.isBlocked [⟨"example.com".toList, true⟩]
        ("www.example.com".toList) =
      blockedDomainsStorage.isBlocked [⟨"example.com".toList, true⟩]
        ("example.com".toList) ∧
    blockedDomainsStorage.add [⟨"example.com".toList, true⟩]
        ("www.example.com".toList) = Except.error AddError.duplicateEntry :=
  C10_verbatim_comparison [⟨"example.com".toList, true⟩]
    ("www.example.com".toList) (by decide) (by decide) (by decide)

/-! ## Store invariants (claims C3 and C6) -/

theorem add_ok_shape {st : List BlockedDomain} {raw : List Char}
    {st2 : List BlockedDomain}
    (h : blockedDomainsStorage.add st raw = Except.ok st2) :
    st2 = st ++ [⟨normalizeDomain raw, true⟩] ∧
    isValidDomain (normalizeDomain raw) = true ∧
    ∀ e ∈ st, e.domain ≠ normalizeDomain raw := by
  unfold blockedDomainsStorage.add at h
  by_cases h1 : ((normalizeDomain raw).isEmpty ||
      !(isValidDomain (normalizeDomain raw))) = true
  · rw [if_pos h1] at h
    simp at h
  · rw [if_neg h1] at h
    have hv : isValidDomain (normalizeDomain raw) = true := by
      cases hb : isValidDomain (normalizeDomain raw)
      · exact absurd (by simp [hb]) h1
      · rfl
    by_cases h2 : (st.any fun d => d.domain == normalizeDomain raw) = true
    · rw [if_pos h2] at h
      simp at h
    · rw [if_neg h2] at h
      injection h with h
      refine ⟨h.symm, hv, ?_⟩
      intro e he heq
      exact h2 (List.any_eq_true.mpr ⟨e, he, by simp [heq]⟩)

theorem toggleEntry_domain (d : List Char) (e : BlockedDomain) :
    ((if e.domain == d then ⟨e.domain, !e.enabled⟩ else e) :
      BlockedDomain).domain = e.domain := by
  split <;> rfl

theorem applyOp_distinct (st : List BlockedDomain) (op : StoreOp)
    (h : st.Pairwise (fun a b => a.domain ≠ b.domain)) :
    (applyOp st op).Pairwise (fun a b => a.domain ≠ b.domain) := by
  cases op with
  | addOp raw =>
    cases hadd : blockedDomainsStorage.add st raw with
    | error e => simpa [applyOp, hadd] using h
    | ok st2 =>
      rcases add_ok_shape hadd with ⟨rfl, _, hfresh⟩
      simp only [applyOp, hadd]
      rw [List.pairwise_append]
      refine ⟨h, by simp, ?_⟩
      intro a ha b hb
      rcases List.mem_singleton.mp hb with rfl
      exact hfresh a ha
  | removeOp d =>
    simpa [applyOp, blockedDomainsStorage.remove] using
      List.Pairwise.sublist (List.filter_sublist st) h
  | toggleOp d =>
    simp only [applyOp, blockedDomainsStorage.toggle]
    rw [List.pairwise_map]
    refine h.imp ?_
    intro a b hne
    rw [toggleEntry_domain, toggleEntry_domain]
    exact hne

theorem goodDomain_normalizeDomain (raw : List Char)
    (hv : isValidDomain (normalizeDomain raw) = true) :
    goodDomain (normalizeDomain raw) = true := by
  unfold goodDomain
  rw [hv, toLowerL_normalizeDomain]
  simp only [beq_self_eq_true, Bool.true_and, Bool.and_true]
  rw [List.all_eq_true]
  intro c hc
  simp only [bne_iff_ne, ne_eq, decide_eq_true_eq]
  intro hcs
  exact slash_not_mem_normalizeDomain raw (hcs ▸ hc)

theorem applyOp_good (st : List BlockedDomain) (op : StoreOp)
    (h : ∀ e ∈ st, goodDomain e.domain = true) :
    ∀ e ∈ applyOp st op, goodDomain e.domain = true := by
  cases op with
  | addOp raw =>
    cases hadd : blockedDomainsStorage.add st raw with
    | error e => simpa [applyOp, hadd] using h
    | ok st2 =>
      rcases add_ok_shape hadd with ⟨rfl, hv, _⟩
      simp only [applyOp, hadd]
      intro e he
      rcases List.mem_append.mp he with hin | hnew
      · exact h e hin
      · rcases List.mem_singleton.mp hnew with rfl
        exact goodDomain_normalizeDomain raw hv
  | removeOp d =>
    intro e he
    exact h e (List.mem_of_mem_filter he)
  | toggleOp d =>
    intro e he
    simp only [applyOp, blockedDomainsStorage.toggle] at he
    rcases List.mem_map.mp he with ⟨a, ha, rfl⟩
    rw [toggleEntry_domain]
    exact h a ha

/-! ## Claim C3 -/

/-- C3: counterexample.  The state reached from the empty collection (the
deserialization of the persisted string for an empty list) by the single
operation `add www.www.example.com` stores the domain `www.example.com`,
which still carries a `www.` label and so is not in the canonical form the
claim asserts. -/
theorem C3_cex :
    applyOps [] [StoreOp.addOp ("www.www.example.com".toList)] =
      [⟨"www.example.com".toList, true⟩] ∧
    canonicalSpec ("www.example.com".toList) = false ∧
    deserialize jsonParseFix (JsInput.str ("[]".toList)) = [] :=
  ⟨by decide, by decide, rfl⟩

/-- C3 (amended): after any sequence of add/remove/toggle operations
starting from a state all of whose domains are lowercase, slash-free (hence
scheme-free, path-free and with no trailing slash) and accepted by
`isValidDomain` — in particular from the empty collection — every entry's
domain again has that property.  The `no www. prefix` part of canonical
form is not invariant, and deserialized states are not covered because
`deserialize` performs no normalization. -/
theorem C3_good_invariant (ops : List StoreOp) (st : List BlockedDomain)
    (h : ∀ e ∈ st, goodDomain e.domain = true) :
    ∀ e ∈ applyOps st ops, goodDomain e.domain = true := by
  induction ops generalizing st with
  | nil => exact h
  | cons op ops ih => exact ih _ (applyOp_good st op h)

/-- C3: witness, running one valid `add` from the empty collection and
reading off the invariant on the entry it produced. -/
theorem C3_witness :
    goodDomain (⟨"a.com".toList, true⟩ : BlockedDomain).domain = true :=
  C3_good_invariant [StoreOp.addOp ("a.com".toList)] [] (by simp)
    ⟨"a.com".toList, true⟩ (by decide)

/-! ## Claim C6 -/

/-- C6: counterexample.  Deserializing the persisted legacy string holding
`a.com` twice yields a collection with two entries carrying the same
domain, so a deserialized state need not satisfy the uniqueness claim. -/
theorem C6_cex :
    deserialize jsonParseFix (JsInput.str ("[\"a.com\",\"a.com\"]".toList)) =
      [wrapLegacy (Json.str ("a.com".toList)),
        wrapLegacy (Json.str ("a.com".toList))] ∧
    getProp (wrapLegacy (Json.str ("a.com".toList))) ("domain".toList) =
      some (Json.str ("a.com".toList)) :=
  ⟨rfl, rfl⟩

/-- C6 (amended): after any sequence of add/remove/toggle operations
starting from a state whose domains are pairwise distinct — in particular
from the empty collection — the domains remain pairwise distinct.
Deserialized states are not covered: `deserialize` does not deduplicate. -/
theorem C6_unique_invariant (ops : List StoreOp) (st : List BlockedDomain)
    (h : st.Pairwise (fun a b => a.domain ≠ b.domain)) :
    (applyOps st ops).Pairwise (fun a b => a.domain ≠ b.domain) := by
  induction ops generalizing st with
  | nil => exact h
  | cons op ops ih => exact ih _ (applyOp_distinct st op h)

/-- C6: witness, running two adds of the same domain and a toggle from the
empty collection. -/
theorem C6_witness :
    (applyOps [] [StoreOp.addOp ("a.com".toList),
        StoreOp.addOp ("a.com".toList),
        StoreOp.toggleOp ("a.com".toList)]).Pairwise
      (fun a b => a.domain ≠ b.domain) :=
  C6_unique_invariant _ [] (by simp)

/-! ## Claim C5 -/

theorem codeKeep_eq_specKeep (x : Json) : codeKeep x = specKeep x := by
  cases x <;>
    simp [codeKeep, specKeep, jsTruthy, typeofIsObject, getProp,
      isStringProp, isBoolProp]

/-- C5: the deserializer is total by construction and agrees clause by
clause with the claimed policy: missing, null, literal `undefined`/`null`,
blank input, unparseable content and non-sequences give the empty
collection; a sequence headed by a plain string is migrated by wrapping
every element; any other sequence keeps exactly the objects with a string
`domain` field and a boolean `enabled` field. -/
theorem C5_deserialize_spec (jsonParse : List Char → Option Json)
    (text : JsInput) :
    deserialize jsonParse text = deserializeSpec jsonParse text := by
  cases text with
  | undef => rfl
  | null => rfl
  | str s =>
    by_cases hcond : (s == "undefined".toList || s == "null".toList ||
        trimL s == ([] : List Char)) = true
    · simp only [deserialize, deserializeSpec, jsString]
      rw [if_pos hcond, if_pos hcond]
    · simp only [deserialize, deserializeSpec, jsString]
      rw [if_neg hcond, if_neg hcond]
      cases hj : jsonParse s with
      | none => rfl
      | some j =>
        cases j with
        | arr elems =>
          cases elems with
          | nil => rfl
          | cons e rest =>
            cases e with
            | str s2 => rfl
            | num n => exact List.filter_congr (fun x _ => codeKeep_eq_specKeep x)
            | bool b => exact List.filter_congr (fun x _ => codeKeep_eq_specKeep x)
            | null => exact List.filter_congr (fun x _ => codeKeep_eq_specKeep x)
            | arr es => exact List.filter_congr (fun x _ => codeKeep_eq_specKeep x)
            | obj fs => exact List.filter_congr (fun x _ => codeKeep_eq_specKeep x)
        | str s2 => rfl
        | num n => rfl
        | bool b => rfl
        | null => rfl
        | obj fields => rfl

/-! ## Claim C8 -/

theorem isBlocked_true_iff (st : List BlockedDomain) (q : List Char) :
    st.Pairwise (fun a b => a.domain ≠ b.domain) →
      (blockedDomainsStorage.isBlocked st q = true ↔
        ∃ e ∈ st, e.domain = normalizeDomain q ∧ e.enabled = true) := by
  rw [isBlocked_unfold]
  induction st with
  | nil =>
    intro _
    simp [List.find?]
  | cons a t ih =>
    intro h
    rw [List.pairwise_cons] at h
    by_cases ha : (a.domain == normalizeDomain q) = true
    · rw [@List.find?_cons_of_pos _ (fun e => e.domain == normalizeDomain q) a t ha]
      constructor
      · intro he
        exact ⟨a, by simp, by simpa using ha, he⟩
      · rintro ⟨e, he, hd, hen⟩
        rcases List.mem_cons.mp he with rfl | het
        · exact hen
        · have : a.domain = e.domain := by
            rw [hd]
            simpa using ha
          exact absurd this (h.1 e het)
    · rw [@List.find?_cons_of_neg _ (fun e => e.domain == normalizeDomain q) a t ha]
      rw [ih h.2]
      constructor
      · rintro ⟨e, het, hd, hen⟩
        exact ⟨e, by simp [het], hd, hen⟩
      · rintro ⟨e, he, hd, hen⟩
        rcases List.mem_cons.mp he with rfl | het
        · exact absurd hd (by simpa using ha)
        · exact ⟨e, het, hd, hen⟩

/-- C8: counterexample.  The URL `https://www.www.example.com/page` passes
the exclusion filter and parses to the hostname `www.www.example.com`,
whose single normalization `www.example.com` matches an enabled entry of
the store, yet no redirect is issued: `isBlocked` normalizes its argument a
second time and looks up `example.com` instead. -/
theorem C8_cex :
    excludedUrl ("https://www.www.example.com/page".toList) = false ∧
    parseHostFix ("https://www.www.example.com/page".toList) =
      some ("www.www.example.com".toList) ∧
    normalizeDomain ("www.www.example.com".toList) = "www.example.com".toList ∧
    redirects (checkAndBlockDomain parseHostFix
      [⟨"www.example.com".toList, true⟩]
      ("https://www.www.example.com/page".toList)) = false :=
  ⟨by decide, by decide, by decide, by decide⟩

/-- C8 (amended): for every evaluation that passes the exclusion filter and
whose URL parses, a redirect is issued exactly when the store holds an
entry whose domain equals the hostname normalized twice — once by the
guard, once again inside `isBlocked` — with its enabled flag true; and a
committed-navigation event with a non-zero frame id triggers no evaluation
at all.  The store is assumed to have pairwise-distinct domains, the
store's own insertion invariant. -/
theorem C8_redirect_iff (parseHost : List Char → Option (List Char))
    (store : List BlockedDomain) (url hostname : List Char)
    (hex : excludedUrl url = false)
    (hp : parseHost url = some hostname)
    (hnd : store.Pairwise (fun a b => a.domain ≠ b.domain)) :
    (redirects (checkAndBlockDomain parseHost store url) = true ↔
      ∃ e ∈ store, e.domain = normalizeDomain (normalizeDomain hostname) ∧
        e.enabled = true) ∧
    (∀ details : NavDetails, details.frameId ≠ 0 →
      onCommittedHandler parseHost store details = none) := by
  constructor
  · have hcheck : checkAndBlockDomain parseHost store url =
        GuardResult.checked (normalizeDomain hostname)
          (blockedDomainsStorage.isBlocked store (normalizeDomain hostname)) := by
      unfold checkAndBlockDomain
      rw [if_neg (by simp [hex]), hp]
    rw [hcheck]
    simpa [redirects] using
      isBlocked_true_iff store (normalizeDomain hostname) hnd
  · intro details hf
    unfold onCommittedHandler
    rw [if_neg hf]

/-- C8: witness at the enabled entry `blocked-domain.com` and the URL
`https://blocked-domain.com/page`. -/
theorem C8_witness :
    (redirects (checkAndBlockDomain parseHostFix
        [⟨"blocked-domain.com".toList, true⟩]
        ("https://blocked-domain.com/page".toList)) = true ↔
      ∃ e ∈ [(⟨"blocked-domain.com".toList, true⟩ : BlockedDomain)],
        e.domain = normalizeDomain (normalizeDomain ("blocked-domain.com".toList)) ∧
          e.enabled = true) ∧
    (∀ details : NavDetails, details.frameId ≠ 0 →
      onCommittedHandler parseHostFix
        [⟨"blocked-domain.com".toList, true⟩] details = none) :=
  C8_redirect_iff parseHostFix [⟨"blocked-domain.com".toList, true⟩]
    ("https://blocked-domain.com/page".toList)
    ("blocked-domain.com".toList) (by decide) (by decide) (by simp)

end FocusGuard
